import Mathlib

set_option maxRecDepth 8192

/-!
Shallow embedding of the telnet video streaming server (`src/app.js`).

Bytes are modelled as `Nat` (each in `0..255` where the program produces
them), buffers as `List Nat`, JavaScript strings as Lean `String`.
`CFG.charAspect` is the source constant `2.0`; all floating-point
expressions in `computeFit` are translated to exact integer arithmetic:
`targetHOverW = (baseH/baseW)/2`, so `Math.floor(dstH / targetHOverW)`
becomes `dstH * (2*baseW) / baseH` and `Math.floor(outW * targetHOverW)`
becomes `outW * baseH / (2*baseW)` (Nat division is the floor).  For the
configurations appearing in the claims the IEEE double computation of the
source is exact, so the integer translation agrees with it.
-/

namespace TelnetVideo

/-- The source constant `MODE_DEFAULT = 2` (truecolor). -/
def MODE_DEFAULT : Nat := 2

/-- The ASCII ramp `CFG.chars = " .:-=+*#%@"` (dark to bright). -/
def rampChars : List Char := (" .:-=+*#%@").data

/-- The source constant `CFG.dropIfBufferedOver = 1024*1024`. -/
def dropIfBufferedOver : Nat := 1024 * 1024

/-- The quit keys `CFG.quitKeys = ["q", "Q"]` as their ASCII byte values. -/
def quitKeys : List Nat := [113, 81]

/-- Utility `clampInt(n, lo, hi)` from the source:
`n < lo ? lo : (n > hi ? hi : n)`. -/
def clampInt (n lo hi : Nat) : Nat :=
  if n < lo then lo else if n > hi then hi else n

/-- The fit rectangle returned by `computeFit`. -/
structure FitRect where
  dstW : Nat
  dstH : Nat
  outW : Nat
  outH : Nat
  padX : Nat
  padY : Nat
deriving DecidableEq, Repr

/-- `computeFit(cols, rows)` from the source, parameterised by the config
base resolution `baseW × baseH` (defaults `240×135`).  `charAspect = 2.0`
is baked in, as in the source.  The two `Math.floor` of double divisions
are translated to Nat division as explained in the file header. -/
def computeFit (baseW baseH cols rows : Nat) : FitRect :=
  let dstW := clampInt cols 1 10000
  let dstH := clampInt (rows - 1) 1 10000
  let maxWByH := dstH * (2 * baseW) / baseH
  let outW := clampInt (min dstW maxWByH) 1 dstW
  let outH := clampInt (min dstH (outW * baseH / (2 * baseW))) 1 dstH
  let padX := (dstW - outW) / 2
  let padY := (dstH - outH) / 2
  ⟨dstW, dstH, outW, outH, padX, padY⟩

/-- Telnet constants from the source: `IAC = 255`, `SB = 250`, `SE = 240`,
`NAWS = 31`. -/
def IAC : Nat := 255

def SB : Nat := 250

def SE : Nat := 240

def NAWS : Nat := 31

/-- One iteration of the `parseNAWS` scan at position `i`: the header
`IAC SB NAWS` must match at `i`, the trailer `IAC SE` at `i+7`/`i+8`;
then `w`/`h` are read big-endian (`readUInt16BE`), and the update is
accepted only when both are positive.  Returns the new `(cols, rows)`
if this position produces an update. -/
def nawsMatchAt (data : List Nat) (i : Nat) : Option (Nat × Nat) :=
  if data.getD i 0 = IAC ∧ data.getD (i + 1) 0 = SB ∧ data.getD (i + 2) 0 = NAWS
      ∧ data.getD (i + 7) 0 = IAC ∧ data.getD (i + 8) 0 = SE then
    let w := data.getD (i + 3) 0 * 256 + data.getD (i + 4) 0
    let h := data.getD (i + 5) 0 * 256 + data.getD (i + 6) 0
    if 0 < w ∧ 0 < h then some (w, h) else none
  else none

/-- `parseNAWS(sock, data)` from the source: the
`for (let i = 0; i + 8 < data.length; i++)` scan over one chunk, threading
the mutable `(sock.cols, sock.rows)` state; a later match overwrites an
earlier one, exactly as in the source.  The loop bound `i + 8 < data.length`
is the same as `i < data.length - 8` over `Nat`, so the loop is a fold over
`List.range (data.length - 8)`.  The scanner holds no state across chunks
other than the session's `cols`/`rows` themselves. -/
def parseNAWS (cols rows : Nat) (data : List Nat) : Nat × Nat :=
  (List.range (data.length - 8)).foldl
    (fun g i =>
      match nawsMatchAt data i with
      | some wh => wh
      | none => g)
    (cols, rows)

/-- `textFromTelnet(data)` from the source: drop every `IAC` (255) byte.
The source then decodes the remainder as UTF-8; the claims only ever look
for the ASCII characters `m`/`M`/`q`/`Q` in the decoded text, and a 7-bit
byte is present in Node's UTF-8 decoding of a byte sequence exactly when
the byte itself is present, so the byte-list model is faithful for them. -/
def textFromTelnet (data : List Nat) : List Nat :=
  data.filter (fun b => b ≠ IAC)

/-- `shouldQuit(data)` from the source: the stripped text contains one of
the configured quit characters. -/
def shouldQuit (data : List Nat) : Bool :=
  let text := textFromTelnet data
  quitKeys.any (fun k => text.contains k)

/-- Per-connection session state attached to the socket by the source
(`sock.cols`, `sock.rows`, `sock.mode`).  `cols`/`rows` start at `0`,
standing for the JavaScript `undefined` (both are falsy and `parseNAWS`
only ever stores positive values). -/
structure Session where
  cols : Nat
  rows : Nat
  mode : Nat
deriving DecidableEq, Repr

/-- The mode flip `sock.mode = (sock.mode === 2 ? 1 : 2)`. -/
def toggleMode (m : Nat) : Nat :=
  if m = 2 then 1 else 2

/-- The `sock.on("data")` handler body: `parseNAWS`, then the mode-toggle
scan on `textFromTelnet(data)`, then the quit check `shouldQuit(data)`.
Returns the updated session and whether the connection is closed (quit). -/
def onData (s : Session) (data : List Nat) : Session × Bool :=
  let g := parseNAWS s.cols s.rows data
  let text := textFromTelnet data
  let mode' := if text.contains 109 || text.contains 77 then toggleMode s.mode else s.mode
  let quit := shouldQuit data
  (⟨g.1, g.2, mode'⟩, quit)

/-- The escape prefix `ESC = "\x1b"`. -/
def ESC : String := "\x1b"

/-- The line terminator `NL = "\n"`. -/
def NL : String := "\n"

/-- `" ".repeat(n)`. -/
def spaces (n : Nat) : String :=
  String.mk (List.replicate n ' ')

/-- A decimal digit character (call sites always pass `d < 10`; the `% 10`
keeps the code point in the valid range for every argument). -/
def digitChar (d : Nat) : Char :=
  Char.ofNat (48 + d % 10)

/-- Decimal rendering of a number, as JavaScript template interpolation
`${r}` produces for a nonnegative integer.  Structural recursion on a fuel
that bounds the number of digits (each step divides by 10). -/
def decStrCore (fuel n : Nat) : List Char :=
  match fuel with
  | 0 => []
  | fuel + 1 =>
    if n < 10 then [digitChar n]
    else decStrCore fuel (n / 10) ++ [digitChar (n % 10)]

/-- Decimal rendering of `n` (fuel `n + 1` always suffices). -/
def decStr (n : Nat) : String :=
  String.mk (decStrCore (n + 1) n)

/-- The precomputed `LUT` index `Math.floor((v * (CFG.chars.length - 1)) / 255)`. -/
def lutIndex (v : Nat) : Nat :=
  v * (rampChars.length - 1) / 255

/-- `LUT[v] = CFG.chars[lutIndex v]`; total via `getD` (for the byte range
`v ≤ 255` the index is always in bounds). -/
def lutChar (v : Nat) : Char :=
  rampChars.getD (lutIndex v) ' '

/-- Sequential string accumulation (`out += part` in a loop). -/
def appendAll (parts : List String) : String :=
  parts.foldl (fun acc s => acc ++ s) ""

/-- `renderAscii(grayFrame, cols, rows)` from the source: cursor-home
prefix, `padY` blank lines, `outH` content lines (left pad, nearest
neighbour sampled ramp characters, right pad), bottom blank lines.  Frame
reads are `getD _ 0` (the broadcaster only passes frames of exactly
`baseW*baseH` bytes, for which every read is in bounds). -/
def renderAscii (baseW baseH : Nat) (grayFrame : List Nat) (cols rows : Nat) : String :=
  let f := computeFit baseW baseH cols rows
  let blank := spaces f.dstW ++ NL
  let top := appendAll (List.replicate f.padY blank)
  let body := appendAll ((List.range f.outH).map (fun oy =>
    let sy := oy * baseH / f.outH
    let srcRow := sy * baseW
    let line := spaces f.padX ++ String.mk ((List.range f.outW).map (fun ox =>
      lutChar (grayFrame.getD (srcRow + ox * baseW / f.outW) 0)))
    let rightPad := f.dstW - f.padX - f.outW
    line ++ spaces rightPad ++ NL))
  let bottom := appendAll (List.replicate (f.dstH - f.padY - f.outH) blank)
  ESC ++ "[H" ++ top ++ body ++ bottom

/-- One truecolor cell of the inner `ox` loop: emit a 24-bit background
escape only when the sampled colour differs from the previous cell's, then
one space.  The JavaScript `-1` sentinels for `curR/curG/curB` are the
`none` state (a real sample never equals the sentinel). -/
def tcCell (rgbFrame : List Nat) (baseW sy outW : Nat)
    (st : Option (Nat × Nat × Nat) × String) (ox : Nat) :
    Option (Nat × Nat × Nat) × String :=
  let sx := ox * baseW / outW
  let i := (sy * baseW + sx) * 3
  let r := rgbFrame.getD i 0
  let g := rgbFrame.getD (i + 1) 0
  let b := rgbFrame.getD (i + 2) 0
  if st.1 ≠ some (r, g, b) then
    (some (r, g, b),
      st.2 ++ ESC ++ "[48;2;" ++ decStr r ++ ";" ++ decStr g ++ ";" ++ decStr b ++ "m" ++ " ")
  else (st.1, st.2 ++ " ")

/-- `renderTruecolor(rgbFrame, cols, rows)` from the source. -/
def renderTruecolor (baseW baseH : Nat) (rgbFrame : List Nat) (cols rows : Nat) : String :=
  let f := computeFit baseW baseH cols rows
  let blank := spaces f.dstW ++ NL
  let top := appendAll (List.replicate f.padY blank)
  let body := appendAll ((List.range f.outH).map (fun oy =>
    let sy := oy * baseH / f.outH
    let cells := (List.range f.outW).foldl (tcCell rgbFrame baseW sy f.outW)
      ((none : Option (Nat × Nat × Nat)), spaces f.padX)
    let line := cells.2 ++ ESC ++ "[0m"
    let rightPad := f.dstW - f.padX - f.outW
    line ++ spaces rightPad ++ NL))
  let bottom := appendAll (List.replicate (f.dstH - f.padY - f.outH) blank)
  ESC ++ "[H" ++ top ++ body ++ bottom

/-- `rgbToGray(rgbFrame)` from the source: the integer luma approximation
`(54*r + 183*g + 19*b) >> 8` per pixel. -/
def rgbToGray (baseW baseH : Nat) (rgbFrame : List Nat) : List Nat :=
  (List.range (baseW * baseH)).map (fun i =>
    (54 * rgbFrame.getD (3 * i) 0 + 183 * rgbFrame.getD (3 * i + 1) 0
      + 19 * rgbFrame.getD (3 * i + 2) 0) / 256)

/-- `renderFrameForClient(rgbFrame, cols, rows, mode)` from the source. -/
def renderFrameForClient (baseW baseH : Nat) (rgbFrame : List Nat) (cols rows mode : Nat) : String :=
  if mode = 2 then renderTruecolor baseW baseH rgbFrame cols rows
  else renderAscii baseW baseH (rgbToGray baseW baseH rgbFrame) cols rows

/-- The count of newline characters of a string (one per rendered line,
since every emitted line is `NL`-terminated). -/
def countNL (s : String) : Nat :=
  s.data.count '\n'

/-- The `while (data.length >= bytesPerFrame)` slicing loop of the ffmpeg
stdout handler, on `data = leftover ++ chunk`.  Structural recursion on a
fuel bounding the iteration count (each iteration removes `fsz ≥ 1` bytes,
so `data.length` iterations always suffice); the `0 < fsz` conjunct
records that the frame size `baseW*baseH*3` of a running server is
positive, which is what keeps the source loop finite. -/
def drainCore (fsz : Nat) : Nat → List Nat → List (List Nat) × List Nat
  | 0, data => ([], data)
  | fuel + 1, data =>
    if fsz ≤ data.length ∧ 0 < fsz then
      let r := drainCore fsz fuel (data.drop fsz)
      (data.take fsz :: r.1, r.2)
    else ([], data)

/-- The frame-slicing loop: yields the complete frames of `data` in order
and returns the strictly-short remainder. -/
def drain (fsz : Nat) (data : List Nat) : List (List Nat) × List Nat :=
  drainCore fsz data.length data

/-- One `ff.stdout.on("data")` event: concatenate the carry-over with the
chunk and slice off complete frames (`Buffer.concat([leftover, chunk])`;
when `leftover` is empty the source uses `chunk` directly, which is the
same list). -/
def demuxChunk (fsz : Nat) (leftover chunk : List Nat) : List (List Nat) × List Nat :=
  drain fsz (leftover ++ chunk)

/-- Delivering a sequence of chunks to the demultiplexer, starting from a
given carry-over: returns all yielded frames in order and the final
carry-over. -/
def demuxRun (fsz : Nat) (leftover : List Nat) : List (List Nat) → List (List Nat) × List Nat
  | [] => ([], leftover)
  | c :: cs =>
    let r := demuxChunk fsz leftover c
    let rest := demuxRun fsz r.2 cs
    (r.1 ++ rest.1, rest.2)

/-- A registered client as seen by the broadcast loop: identity, the
socket-closed flag (`destroyed`), negotiated geometry (`0` = never set,
standing for the falsy `undefined`), outbound buffer occupancy
(`writableLength`) and render mode. -/
structure Client where
  id : Nat
  destroyed : Bool
  cols : Nat
  rows : Nat
  writableLength : Nat
  mode : Nat
deriving DecidableEq, Repr

/-- A client passes the three `continue` guards of the broadcast loop:
not destroyed, geometry negotiated, and write buffer not over the drop
threshold. -/
def clientEligible (threshold : Nat) (c : Client) : Bool :=
  !c.destroyed && (c.cols != 0) && (c.rows != 0) && (c.writableLength ≤ threshold)

/-- One broadcast pass (`for (const c of clients)` inside the frame loop):
skipped clients stay registered and receive nothing; for an eligible
client the frame is rendered and written; when rendering or writing throws
(modelled by the oracle `throwsOn`, since a socket write can raise) the
client is destroyed and evicted (`clients.delete(c)`), and the loop moves
on.  Returns the surviving registry (in order) and the `(id, payload)`
writes performed (in order). -/
def broadcastFrame (baseW baseH threshold : Nat) (throwsOn : Client → Bool)
    (frame : List Nat) : List Client → List Client × List (Nat × String)
  | [] => ([], [])
  | c :: cs =>
    if clientEligible threshold c then
      if throwsOn c then broadcastFrame baseW baseH threshold throwsOn frame cs
      else
        let rest := broadcastFrame baseW baseH threshold throwsOn frame cs
        (c :: rest.1, (c.id, renderFrameForClient baseW baseH frame c.cols c.rows c.mode) :: rest.2)
    else
      let rest := broadcastFrame baseW baseH threshold throwsOn frame cs
      (c :: rest.1, rest.2)

/-- Decoder lifecycle state: the playlist cursor (`currentIndex`), the
demuxer carry-over (`leftover`), the `shuttingDown` and `switching` flags,
and a trace `played` of the playlist indices handed to `startFfmpeg`, in
order. -/
structure LifecycleState where
  currentIndex : Nat
  leftover : List Nat
  shuttingDown : Bool
  switching : Bool
  played : List Nat
deriving DecidableEq, Repr

/-- `playNext()` from the source, for a playlist of length `n`: start the
item at the cursor and advance the cursor modulo `n`. -/
def playNext (n : Nat) (s : LifecycleState) : LifecycleState :=
  { s with
    played := s.played ++ [s.currentIndex]
    currentIndex := (s.currentIndex + 1) % n }

/-- The `ff.on("close")` handler: reset the carry-over to empty, then —
unless shutting down or already switching — set `switching`, start the
next playlist item, and clear `switching`. -/
def onDecoderClose (n : Nat) (s : LifecycleState) : LifecycleState :=
  let s1 := { s with leftover := ([] : List Nat) }
  if s1.shuttingDown then s1
  else if s1.switching then s1
  else
    let s2 := playNext n { s1 with switching := true }
    { s2 with switching := false }

/-- Process state at startup: cursor 0, empty carry-over, no shutdown
requested, nothing played. -/
def initialState : LifecycleState :=
  ⟨0, [], false, false, []⟩

/-- Startup runs `playNext()` once ("Start first video"). -/
def startup (n : Nat) : LifecycleState :=
  playNext n initialState

end TelnetVideo

namespace TelnetVideo

/-! Helper lemmas about `clampInt` and `computeFit`. -/

theorem le_clampInt {lo hi : Nat} (n : Nat) (h : lo ≤ hi) : lo ≤ clampInt n lo hi := by
  unfold clampInt
  split
  · exact Nat.le_refl lo
  · split
    · exact h
    · omega

theorem clampInt_le {lo hi : Nat} (n : Nat) (h : lo ≤ hi) : clampInt n lo hi ≤ hi := by
  unfold clampInt
  split
  · exact h
  · split
    · exact Nat.le_refl hi
    · omega

theorem clampInt_le_self {lo : Nat} (n hi : Nat) (h : lo ≤ n) : clampInt n lo hi ≤ n := by
  unfold clampInt
  split
  · omega
  · split
    · omega
    · exact Nat.le_refl n

theorem clampInt_eq_min {lo : Nat} (n hi : Nat) (h : lo ≤ n) : clampInt n lo hi = min n hi := by
  unfold clampInt
  split
  · omega
  · split
    · omega
    · omega

theorem computeFit_dstW (baseW baseH cols rows : Nat) :
    (computeFit baseW baseH cols rows).dstW = clampInt cols 1 10000 := rfl

theorem computeFit_dstH (baseW baseH cols rows : Nat) :
    (computeFit baseW baseH cols rows).dstH = clampInt (rows - 1) 1 10000 := rfl

theorem computeFit_outW_le (baseW baseH cols rows : Nat) :
    (computeFit baseW baseH cols rows).outW ≤ (computeFit baseW baseH cols rows).dstW :=
  clampInt_le _ (le_clampInt _ (by omega))

theorem computeFit_outH_le (baseW baseH cols rows : Nat) :
    (computeFit baseW baseH cols rows).outH ≤ (computeFit baseW baseH cols rows).dstH :=
  clampInt_le _ (le_clampInt _ (by omega))

theorem computeFit_padX_eq (baseW baseH cols rows : Nat) :
    (computeFit baseW baseH cols rows).padX =
      ((computeFit baseW baseH cols rows).dstW - (computeFit baseW baseH cols rows).outW) / 2 := rfl

theorem computeFit_padY_eq (baseW baseH cols rows : Nat) :
    (computeFit baseW baseH cols rows).padY =
      ((computeFit baseW baseH cols rows).dstH - (computeFit baseW baseH cols rows).outH) / 2 := rfl

/-! Helper lemmas about `countNL`. -/

theorem countNL_append (a b : String) : countNL (a ++ b) = countNL a + countNL b := by
  simp [countNL, String.data_append, List.count_append]

theorem countNL_mk (cs : List Char) : countNL (String.mk cs) = cs.count '\n' := rfl

theorem countNL_spaces (n : Nat) : countNL (spaces n) = 0 := by
  simp [spaces, countNL, List.count_eq_zero, List.mem_replicate]

theorem countNL_NL : countNL NL = 1 := by decide

theorem countNL_ESC : countNL ESC = 0 := by decide

theorem countNL_foldl_append (l : List String) (acc : String) :
    countNL (l.foldl (fun acc s => acc ++ s) acc) = countNL acc + (l.map countNL).sum := by
  induction l generalizing acc with
  | nil => simp
  | cons s l ih =>
    simp only [List.foldl_cons, List.map_cons, List.sum_cons, ih, countNL_append]
    omega

theorem countNL_empty : countNL "" = 0 := rfl

theorem countNL_appendAll (l : List String) :
    countNL (appendAll l) = (l.map countNL).sum := by
  have h := countNL_foldl_append l ""
  rw [countNL_empty] at h
  simpa [appendAll] using h

theorem digitChar_ne_newline (d : Nat) : digitChar d ≠ '\n' := by
  have h : d % 10 < 10 := Nat.mod_lt _ (by omega)
  exact (by decide : ∀ m, m < 10 → Char.ofNat (48 + m) ≠ '\n') _ h

theorem decStrCore_not_newline (fuel n : Nat) : '\n' ∉ decStrCore fuel n := by
  induction fuel generalizing n with
  | zero => simp [decStrCore]
  | succ fuel ih =>
    simp only [decStrCore]
    split
    · intro hmem
      rcases List.mem_singleton.mp hmem with h
      exact digitChar_ne_newline _ h.symm
    · intro hmem
      rcases List.mem_append.mp hmem with h | h
      · exact ih _ h
      · rcases List.mem_singleton.mp h with h'
        exact digitChar_ne_newline _ h'.symm

theorem countNL_decStr (n : Nat) : countNL (decStr n) = 0 := by
  rw [decStr, countNL_mk, List.count_eq_zero]
  exact decStrCore_not_newline _ _

theorem lutChar_ne_newline (v : Nat) : lutChar v ≠ '\n' := by
  unfold lutChar
  by_cases h : lutIndex v < rampChars.length
  · exact (by decide : ∀ j, j < rampChars.length → rampChars.getD j ' ' ≠ '\n') _ h
  · rw [List.getD_eq_default _ _ (by omega)]
    decide

theorem sum_map_ones {α : Type} (l : List α) (f : α → Nat) (h : ∀ x ∈ l, f x = 1) :
    (l.map f).sum = l.length := by
  induction l with
  | nil => rfl
  | cons x l ih =>
    simp only [List.map_cons, List.sum_cons, List.length_cons,
      h x (List.mem_cons_self _ _), ih (fun y hy => h y (List.mem_cons_of_mem _ hy))]
    omega

theorem count_newline_map_lutChar (f : Nat → Nat) (l : List Nat) :
    (l.map (fun x => lutChar (f x))).count '\n' = 0 := by
  rw [List.count_eq_zero]
  intro hmem
  rcases List.mem_map.mp hmem with ⟨v, -, hv⟩
  exact lutChar_ne_newline _ hv

/-! Line counts of the two renderers: every rendered block consists of the
cursor-home prefix plus exactly `dstH` newline-terminated lines. -/

theorem countNL_renderAscii (baseW baseH : Nat) (g : List Nat) (cols rows : Nat) :
    countNL (renderAscii baseW baseH g cols rows) = (computeFit baseW baseH cols rows).dstH := by
  have hpadY : (computeFit baseW baseH cols rows).padY ≤
      (computeFit baseW baseH cols rows).dstH - (computeFit baseW baseH cols rows).outH := by
    rw [computeFit_padY_eq]
    exact Nat.div_le_self _ _
  have houtH := computeFit_outH_le baseW baseH cols rows
  simp only [renderAscii, countNL_append, countNL_appendAll, List.map_replicate,
    List.sum_replicate, smul_eq_mul, countNL_spaces, countNL_NL, countNL_ESC, List.map_map]
  rw [sum_map_ones]
  · simp only [List.length_range]
    rw [show countNL "[H" = 0 from by decide]
    omega
  · intro oy _
    simp only [Function.comp_apply, countNL_append, countNL_spaces, countNL_NL, countNL_mk,
      count_newline_map_lutChar]

theorem countNL_tcFoldl (rgbFrame : List Nat) (baseW sy outW : Nat) (l : List Nat) :
    ∀ st : Option (Nat × Nat × Nat) × String,
      countNL ((l.foldl (tcCell rgbFrame baseW sy outW) st).2) = countNL st.2 := by
  induction l with
  | nil => intro st; rfl
  | cons x l ih =>
    intro st
    rw [List.foldl_cons, ih]
    simp only [tcCell]
    split
    · simp only [countNL_append, countNL_ESC, countNL_decStr,
        show countNL "[48;2;" = 0 from by decide, show countNL ";" = 0 from by decide,
        show countNL "m" = 0 from by decide, show countNL " " = 0 from by decide]
      omega
    · simp only [countNL_append, show countNL " " = 0 from by decide]
      omega

theorem countNL_renderTruecolor (baseW baseH : Nat) (rgb : List Nat) (cols rows : Nat) :
    countNL (renderTruecolor baseW baseH rgb cols rows) =
      (computeFit baseW baseH cols rows).dstH := by
  have hpadY : (computeFit baseW baseH cols rows).padY ≤
      (computeFit baseW baseH cols rows).dstH - (computeFit baseW baseH cols rows).outH := by
    rw [computeFit_padY_eq]
    exact Nat.div_le_self _ _
  have houtH := computeFit_outH_le baseW baseH cols rows
  simp only [renderTruecolor, countNL_append, countNL_appendAll, List.map_replicate,
    List.sum_replicate, smul_eq_mul, countNL_spaces, countNL_NL, countNL_ESC, List.map_map]
  rw [sum_map_ones]
  · simp only [List.length_range]
    rw [show countNL "[H" = 0 from by decide]
    omega
  · intro oy _
    simp only [Function.comp_apply, countNL_append, countNL_spaces, countNL_NL, countNL_ESC,
      countNL_tcFoldl, show countNL "[0m" = 0 from by decide]

/-! Helper lemmas about the frame demultiplexer. -/

theorem drainCore_congr (fsz : Nat) :
    ∀ fuel₁ fuel₂ (data : List Nat), data.length ≤ fuel₁ → data.length ≤ fuel₂ →
      drainCore fsz fuel₁ data = drainCore fsz fuel₂ data := by
  intro fuel₁
  induction fuel₁ with
  | zero =>
    intro fuel₂ data h₁ _
    have hd : data = [] := List.eq_nil_of_length_eq_zero (by omega)
    subst hd
    cases fuel₂ with
    | zero => rfl
    | succ k =>
      simp only [drainCore]
      rw [if_neg (by simp only [List.length_nil]; omega)]
  | succ fuel₁ ih =>
    intro fuel₂ data h₁ h₂
    cases fuel₂ with
    | zero =>
      have hd : data = [] := List.eq_nil_of_length_eq_zero (by omega)
      subst hd
      simp only [drainCore]
      rw [if_neg (by simp only [List.length_nil]; omega)]
    | succ k =>
      simp only [drainCore]
      by_cases hc : fsz ≤ data.length ∧ 0 < fsz
      · rw [if_pos hc, if_pos hc]
        rw [ih k (data.drop fsz) (by simp; omega) (by simp; omega)]
      · rw [if_neg hc, if_neg hc]

theorem drain_stop (fsz : Nat) (data : List Nat) (h : ¬(fsz ≤ data.length ∧ 0 < fsz)) :
    drain fsz data = ([], data) := by
  unfold drain
  cases data with
  | nil => rfl
  | cons d ds =>
    simp only [List.length_cons, drainCore]
    rw [if_neg (by simp only [List.length_cons] at h; exact h)]

theorem drain_step (fsz : Nat) (data : List Nat) (h : fsz ≤ data.length) (hf : 0 < fsz) :
    drain fsz data =
      ((data.take fsz) :: (drain fsz (data.drop fsz)).1, (drain fsz (data.drop fsz)).2) := by
  unfold drain
  obtain ⟨m, hm⟩ : ∃ m, data.length = m + 1 := ⟨data.length - 1, by omega⟩
  rw [hm]
  simp only [drainCore]
  rw [if_pos ⟨h, hf⟩]
  rw [drainCore_congr fsz m (data.drop fsz).length (data.drop fsz) (by simp; omega) (le_refl _)]

theorem drain_frames_len (fsz : Nat) (hf : 0 < fsz) :
    ∀ n (data : List Nat), data.length ≤ n → ∀ f ∈ (drain fsz data).1, f.length = fsz := by
  intro n
  induction n with
  | zero =>
    intro data h f hmem
    rw [drain_stop fsz data (by omega)] at hmem
    simp at hmem
  | succ n ih =>
    intro data h f hmem
    by_cases hc : fsz ≤ data.length
    · rw [drain_step fsz data hc hf] at hmem
      rcases List.mem_cons.mp hmem with h' | h'
      · rw [h']
        exact List.length_take_of_le hc
      · exact ih (data.drop fsz) (by simp; omega) f h'
    · rw [drain_stop fsz data (by omega)] at hmem
      simp at hmem

theorem drain_join (fsz : Nat) (hf : 0 < fsz) :
    ∀ n (data : List Nat), data.length ≤ n →
      (drain fsz data).1.flatten ++ (drain fsz data).2 = data := by
  intro n
  induction n with
  | zero =>
    intro data h
    rw [drain_stop fsz data (by omega)]
    simp
  | succ n ih =>
    intro data h
    by_cases hc : fsz ≤ data.length
    · rw [drain_step fsz data hc hf]
      simp only [List.flatten_cons, List.append_assoc]
      rw [ih (data.drop fsz) (by simp; omega)]
      exact List.take_append_drop _ _
    · rw [drain_stop fsz data (by omega)]
      simp

theorem drain_rest_lt (fsz : Nat) (hf : 0 < fsz) :
    ∀ n (data : List Nat), data.length ≤ n → (drain fsz data).2.length < fsz := by
  intro n
  induction n with
  | zero =>
    intro data h
    rw [drain_stop fsz data (by omega)]
    show data.length < fsz
    omega
  | succ n ih =>
    intro data h
    by_cases hc : fsz ≤ data.length
    · rw [drain_step fsz data hc hf]
      exact ih (data.drop fsz) (by simp; omega)
    · rw [drain_stop fsz data (by omega)]
      show data.length < fsz
      omega

theorem join_length_mod (fsz : Nat) :
    ∀ F : List (List Nat), (∀ f ∈ F, f.length = fsz) → F.flatten.length % fsz = 0 := by
  intro F
  induction F with
  | nil => simp
  | cons f F ih =>
    intro h
    have hF := ih (fun g hg => h g (List.mem_cons_of_mem _ hg))
    rw [List.flatten_cons, List.length_append, h f (List.mem_cons_self _ _), Nat.add_mod_left]
    exact hF

theorem drain_append (fsz : Nat) (hf : 0 < fsz) :
    ∀ n (x y : List Nat), x.length ≤ n →
      drain fsz (x ++ y) =
        ((drain fsz x).1 ++ (drain fsz ((drain fsz x).2 ++ y)).1,
          (drain fsz ((drain fsz x).2 ++ y)).2) := by
  intro n
  induction n with
  | zero =>
    intro x y h
    have hx : x = [] := List.eq_nil_of_length_eq_zero (by omega)
    subst hx
    rw [drain_stop fsz [] (by simp only [List.length_nil]; omega)]
    simp
  | succ n ih =>
    intro x y h
    by_cases hc : fsz ≤ x.length
    · have hcxy : fsz ≤ (x ++ y).length := by simp; omega
      rw [drain_step fsz (x ++ y) hcxy hf, drain_step fsz x hc hf]
      have htake : (x ++ y).take fsz = x.take fsz := List.take_append_of_le_length hc
      have hdrop : (x ++ y).drop fsz = x.drop fsz ++ y := List.drop_append_of_le_length hc
      rw [htake, hdrop, ih (x.drop fsz) y (by simp; omega)]
      simp
    · rw [drain_stop fsz x (by omega)]
      simp


theorem demuxRun_eq_drain (fsz : Nat) (hf : 0 < fsz) :
    ∀ (cs : List (List Nat)) (leftover : List Nat), leftover.length < fsz →
      demuxRun fsz leftover cs = drain fsz (leftover ++ cs.flatten) := by
  intro cs
  induction cs with
  | nil =>
    intro leftover hl
    rw [List.flatten_nil, List.append_nil]
    rw [drain_stop fsz leftover (by omega)]
    rfl
  | cons c cs ih =>
    intro leftover hl
    show (let r := demuxChunk fsz leftover c
          let rest := demuxRun fsz r.2 cs
          (r.1 ++ rest.1, rest.2)) = _
    have hrest : (demuxChunk fsz leftover c).2.length < fsz :=
      drain_rest_lt fsz hf (leftover ++ c).length _ (le_refl _)
    simp only [demuxChunk] at hrest ⊢
    rw [ih _ hrest]
    rw [List.flatten_cons, ← List.append_assoc]
    rw [drain_append fsz hf (leftover ++ c).length (leftover ++ c) cs.flatten (le_refl _)]

/-! Helper lemmas about `parseNAWS`, the mode toggle and the broadcaster. -/

theorem nawsMatchAt_pos (data : List Nat) (i w h : Nat)
    (hm : nawsMatchAt data i = some (w, h)) : 0 < w ∧ 0 < h := by
  simp only [nawsMatchAt] at hm
  split at hm
  · split at hm
    · injection hm with hm'
      injection hm' with h1 h2
      subst h1
      subst h2
      assumption
    · exact absurd hm (by simp)
  · exact absurd hm (by simp)

theorem parseNAWS_state (cols rows : Nat) (data : List Nat) :
    parseNAWS cols rows data = (cols, rows)
    ∨ (0 < (parseNAWS cols rows data).1 ∧ 0 < (parseNAWS cols rows data).2) := by
  unfold parseNAWS
  generalize List.range (data.length - 8) = l
  induction l generalizing cols rows with
  | nil => exact Or.inl rfl
  | cons i l ih =>
    rw [List.foldl_cons]
    cases hm : nawsMatchAt data i with
    | none => exact ih cols rows
    | some wh =>
      have hpos := nawsMatchAt_pos data i wh.1 wh.2 (by rw [hm])
      rcases ih wh.1 wh.2 with h | h
      · rw [show (wh.1, wh.2) = wh from rfl] at h
        rw [h]
        exact Or.inr hpos
      · exact Or.inr h

theorem toggleMode_ne (m : Nat) : toggleMode m ≠ m := by
  unfold toggleMode
  split
  · omega
  · omega

theorem broadcastFrame_spec (baseW baseH threshold : Nat) (throwsOn : Client → Bool)
    (frame : List Nat) (cs : List Client) :
    broadcastFrame baseW baseH threshold throwsOn frame cs
      = (cs.filter (fun c => !(clientEligible threshold c && throwsOn c)),
         (cs.filter (fun c => clientEligible threshold c && !throwsOn c)).map
           (fun c => (c.id, renderFrameForClient baseW baseH frame c.cols c.rows c.mode))) := by
  induction cs with
  | nil => rfl
  | cons c cs ih =>
    show (if clientEligible threshold c then _ else _) = _
    by_cases he : clientEligible threshold c
    · by_cases ht : throwsOn c
      · rw [if_pos he, if_pos ht, ih]
        simp [he, ht]
      · rw [if_pos he, if_neg ht, ih]
        simp [he, ht]
    · rw [if_neg he, ih]
      simp [he]

end TelnetVideo

namespace TelnetVideo

/-! Claim theorems. -/

theorem parseNAWS_nine (b0 b1 b2 b3 b4 b5 b6 b7 b8 cols rows : Nat) :
    parseNAWS cols rows [b0, b1, b2, b3, b4, b5, b6, b7, b8]
      = match nawsMatchAt [b0, b1, b2, b3, b4, b5, b6, b7, b8] 0 with
        | some wh => wh
        | none => (cols, rows) := rfl

theorem nawsMatchAt_nine_zero (w h : Nat) (hwh : w = 0 ∨ h = 0) :
    nawsMatchAt [IAC, SB, NAWS, w / 256, w % 256, h / 256, h % 256, IAC, SE] 0 = none := by
  rcases hwh with hw | hh
  · subst hw
    rfl
  · subst hh
    simp only [nawsMatchAt]
    rw [if_pos ⟨rfl, rfl, rfl, rfl, rfl⟩]
    rw [if_neg (fun hC => absurd hC.2 (Nat.lt_irrefl 0))]

/-- C1 (counterexample): delivering the 9-byte NAWS sequence split as
`[255,250,31,0,80]` then `[0,24,255,240]` to the negotiation scanner does
NOT set the geometry to `(80, 24)` — the scanner holds no partial state
across the chunk seam, so starting from unset geometry `(0, 0)` it stays
`(0, 0)`. -/
theorem c1_counterexample :
    ¬ ((let g1 := parseNAWS 0 0 [255, 250, 31, 0, 80]
        parseNAWS g1.1 g1.2 [0, 24, 255, 240]) = (80, 24)) := by
  decide

/-- C1 (amended): the negotiation scanner carries no partial state across
chunks: the split NAWS sequence leaves any session geometry unchanged,
while the same nine bytes delivered in a single chunk do set `(80, 24)`. -/
theorem c1_theorem (cols rows : Nat) :
    (let g1 := parseNAWS cols rows [255, 250, 31, 0, 80]
     parseNAWS g1.1 g1.2 [0, 24, 255, 240]) = (cols, rows)
    ∧ parseNAWS cols rows [255, 250, 31, 0, 80, 0, 24, 255, 240] = (80, 24) :=
  ⟨rfl, rfl⟩

/-- C2 (counterexample): for a 10×3 terminal at base 4×4 and charAspect
2.0, `computeFit` does not return `outW=2, outH=2, padX=4`. -/
theorem c2_counterexample :
    ¬ ((computeFit 4 4 10 3).outW = 2 ∧ (computeFit 4 4 10 3).outH = 2
        ∧ (computeFit 4 4 10 3).padX = 4) := by
  decide

/-- C2 (amended): for a 10×3 terminal at base 4×4 and charAspect 2.0,
`computeFit` returns `outW=4, outH=2, padX=3` (usable height 2, target
aspect 0.5, so `maxWByH = 4`, clamped against the 10 available columns,
and the 4-wide block centred in 10 columns gives left padding 3). -/
theorem c2_theorem :
    (computeFit 4 4 10 3).outW = 4 ∧ (computeFit 4 4 10 3).outH = 2
    ∧ (computeFit 4 4 10 3).padX = 3 := by
  decide

end TelnetVideo

namespace TelnetVideo

theorem textFromTelnet_contains (data : List Nat) (c : Nat) :
    ((textFromTelnet data).contains c = true) ↔ (c ∈ data ∧ c ≠ 255) := by
  simp [textFromTelnet, IAC, List.mem_filter]

/-- C3: both the quit scan and the mode-toggle scan of the data handler
operate on the chunk text with the negotiation-marker (`IAC`, 255) bytes
stripped out — the mode flips exactly when the chunk has a non-IAC
`m`/`M` byte, the connection quits exactly when it has a non-IAC `q`/`Q`
byte — the quit outcome does not depend on the session state the toggle
changed, and one chunk (here `"mq"`) can both toggle the mode and
trigger quit. -/
theorem c3_theorem (s : Session) (data : List Nat) :
    ((onData s data).1.mode ≠ s.mode ↔ ∃ b ∈ data, b ≠ 255 ∧ (b = 109 ∨ b = 77))
    ∧ ((onData s data).2 = true ↔ ∃ b ∈ data, b ≠ 255 ∧ (b = 113 ∨ b = 81))
    ∧ ((onData s data).2 = (onData ⟨s.cols, s.rows, toggleMode s.mode⟩ data).2)
    ∧ ((onData s [109, 113]).1.mode = toggleMode s.mode ∧ (onData s [109, 113]).2 = true) := by
  refine ⟨?_, ?_, rfl, rfl, rfl⟩
  · show (if (textFromTelnet data).contains 109 || (textFromTelnet data).contains 77
          then toggleMode s.mode else s.mode) ≠ s.mode ↔ _
    by_cases hcond : ((textFromTelnet data).contains 109 || (textFromTelnet data).contains 77) = true
    · rw [if_pos hcond]
      have hc := hcond
      rw [Bool.or_eq_true] at hc
      constructor
      · intro _
        rcases hc with h | h
        · rcases (textFromTelnet_contains data 109).mp h with ⟨hm, h255⟩
          exact ⟨109, hm, h255, Or.inl rfl⟩
        · rcases (textFromTelnet_contains data 77).mp h with ⟨hm, h255⟩
          exact ⟨77, hm, h255, Or.inr rfl⟩
      · intro _
        exact toggleMode_ne s.mode
    · rw [if_neg hcond]
      constructor
      · intro h
        exact absurd rfl h
      · rintro ⟨b, hb, h255, rfl | rfl⟩
        · exact absurd (by rw [Bool.or_eq_true]
                           exact Or.inl ((textFromTelnet_contains data 109).mpr ⟨hb, h255⟩)) hcond
        · exact absurd (by rw [Bool.or_eq_true]
                           exact Or.inr ((textFromTelnet_contains data 77).mpr ⟨hb, h255⟩)) hcond
  · show (shouldQuit data = true) ↔ _
    have hq : shouldQuit data
        = ((textFromTelnet data).contains 113 || (textFromTelnet data).contains 81) := by
      simp [shouldQuit, quitKeys]
    rw [hq, Bool.or_eq_true]
    constructor
    · rintro (h | h)
      · rcases (textFromTelnet_contains data 113).mp h with ⟨hm, h255⟩
        exact ⟨113, hm, h255, Or.inl rfl⟩
      · rcases (textFromTelnet_contains data 81).mp h with ⟨hm, h255⟩
        exact ⟨81, hm, h255, Or.inr rfl⟩
    · rintro ⟨b, hb, h255, rfl | rfl⟩
      · exact Or.inl ((textFromTelnet_contains data 113).mpr ⟨hb, h255⟩)
      · exact Or.inr ((textFromTelnet_contains data 81).mpr ⟨hb, h255⟩)

/-- C4: for a byte stream whose total length is a multiple of the frame
size, any two ways of splitting it into chunks make the demultiplexer
yield the identical ordered frame sequence, with empty final carry-over,
every yielded frame of exactly the frame size, and the concatenation of
the yielded frames equal to the original stream (no byte dropped or
reordered). -/
theorem c4_theorem (fsz : Nat) (cs cs' : List (List Nat)) (hf : 0 < fsz)
    (hlen : cs.flatten.length % fsz = 0) (heq : cs.flatten = cs'.flatten) :
    (demuxRun fsz [] cs).1 = (demuxRun fsz [] cs').1
    ∧ (demuxRun fsz [] cs).2 = []
    ∧ (∀ f ∈ (demuxRun fsz [] cs).1, f.length = fsz)
    ∧ (demuxRun fsz [] cs).1.flatten = cs.flatten := by
  have h0 : ([] : List Nat).length < fsz := by
    simp only [List.length_nil]
    omega
  have hcs := demuxRun_eq_drain fsz hf cs [] h0
  have hcs' := demuxRun_eq_drain fsz hf cs' [] h0
  rw [List.nil_append] at hcs hcs'
  have hfl : ∀ f ∈ (drain fsz cs.flatten).1, f.length = fsz :=
    drain_frames_len fsz hf _ _ (le_refl _)
  have hjoin : (drain fsz cs.flatten).1.flatten ++ (drain fsz cs.flatten).2 = cs.flatten :=
    drain_join fsz hf _ _ (le_refl _)
  have hrest : (drain fsz cs.flatten).2.length < fsz := drain_rest_lt fsz hf _ _ (le_refl _)
  have hmod : (drain fsz cs.flatten).1.flatten.length % fsz = 0 := join_length_mod fsz _ hfl
  have hlen2 : (drain fsz cs.flatten).2.length = 0 := by
    have hL := congrArg List.length hjoin
    rw [List.length_append] at hL
    have hsum : ((drain fsz cs.flatten).1.flatten.length
        + (drain fsz cs.flatten).2.length) % fsz = 0 := by
      rw [hL]
      exact hlen
    rw [Nat.add_mod, hmod, Nat.zero_add, Nat.mod_eq_of_lt (Nat.mod_lt _ hf),
      Nat.mod_eq_of_lt hrest] at hsum
    exact hsum
  have hrestnil : (drain fsz cs.flatten).2 = [] := List.eq_nil_of_length_eq_zero hlen2
  refine ⟨?_, ?_, ?_, ?_⟩
  · rw [hcs, hcs', heq]
  · rw [hcs, hrestnil]
  · rw [hcs]
    exact hfl
  · rw [hcs]
    have hj := hjoin
    rw [hrestnil, List.append_nil] at hj
    exact hj

/-- C4 (witness): frame size 3, the stream `1..6` split as
`[1] / [2,3,4,5,6]` versus frame-aligned `[1,2,3] / [4,5,6]` — same
frames, empty carry-over. -/
theorem c4_witness :
    (demuxRun 3 [] [[1], [2, 3, 4, 5, 6]]).1 = (demuxRun 3 [] [[1, 2, 3], [4, 5, 6]]).1
    ∧ (demuxRun 3 [] [[1], [2, 3, 4, 5, 6]]).2 = [] := by
  have h := c4_theorem 3 [[1], [2, 3, 4, 5, 6]] [[1, 2, 3], [4, 5, 6]]
    (by decide) (by decide) (by decide)
  exact ⟨h.1, h.2.1⟩

/-- C5: one broadcast pass leaves exactly the non-(eligible-and-throwing)
sessions registered and writes exactly one rendered frame to every
eligible non-throwing session, in registry order — so a session is
skipped precisely when its socket is destroyed, its geometry was never
negotiated, or its write-buffer occupancy exceeds the drop threshold, and
a render/write failure removes only the failing session while every other
session of the same pass is still processed. -/
theorem c5_theorem (baseW baseH threshold : Nat) (throwsOn : Client → Bool)
    (frame : List Nat) (cs : List Client) :
    ((broadcastFrame baseW baseH threshold throwsOn frame cs).1
        = cs.filter (fun c => !(clientEligible threshold c && throwsOn c)))
    ∧ ((broadcastFrame baseW baseH threshold throwsOn frame cs).2
        = (cs.filter (fun c => clientEligible threshold c && !throwsOn c)).map
            (fun c => (c.id, renderFrameForClient baseW baseH frame c.cols c.rows c.mode)))
    ∧ (∀ c : Client, clientEligible threshold c = true ↔
        (c.destroyed = false ∧ c.cols ≠ 0 ∧ c.rows ≠ 0 ∧ c.writableLength ≤ threshold)) := by
  refine ⟨?_, ?_, ?_⟩
  · rw [broadcastFrame_spec]
  · rw [broadcastFrame_spec]
  · intro c
    simp [clientEligible, and_assoc]

end TelnetVideo

namespace TelnetVideo

/-- C6 (counterexample): the letterbox bounds and the exact line count do
not hold for every destination with `rows ≥ 2` — at `cols = 0` the width
bound `outW + 2*padX ≤ cols` fails (the fit degenerates to a 1-wide
rectangle), and at `rows = 10002` (over the 10000 clamp) the rendered
block has 10000 lines, not `rows - 1 = 10001`. -/
theorem c6_counterexample :
    ¬ ((computeFit 240 135 0 10002).outH + 2 * (computeFit 240 135 0 10002).padY ≤ 10001
        ∧ (computeFit 240 135 0 10002).outW + 2 * (computeFit 240 135 0 10002).padX ≤ 0
        ∧ countNL (renderAscii 240 135 [] 0 10002) = 10001
        ∧ countNL (renderTruecolor 240 135 [] 0 10002) = 10001) := by
  intro h
  exact absurd h.2.1 (by decide)

/-- C6 (amended): for every destination with `cols ≥ 1` and `rows ≥ 2`
(and any base resolution), the fit satisfies `outH + 2*padY ≤ rows - 1`
and `outW + 2*padX ≤ cols`, and each renderer's output block contains
exactly `min (rows - 1) 10000` newline-terminated lines — the destination
height is clamped at 10000, so this is exactly `rows - 1` whenever
`rows ≤ 10001`. -/
theorem c6_theorem (baseW baseH cols rows : Nat) (g rgb : List Nat)
    (hc : 1 ≤ cols) (hr : 2 ≤ rows) :
    (computeFit baseW baseH cols rows).outH + 2 * (computeFit baseW baseH cols rows).padY
      ≤ rows - 1
    ∧ (computeFit baseW baseH cols rows).outW + 2 * (computeFit baseW baseH cols rows).padX
      ≤ cols
    ∧ countNL (renderAscii baseW baseH g cols rows) = min (rows - 1) 10000
    ∧ countNL (renderTruecolor baseW baseH rgb cols rows) = min (rows - 1) 10000 := by
  have hdH : (computeFit baseW baseH cols rows).dstH = min (rows - 1) 10000 := by
    rw [computeFit_dstH]
    exact clampInt_eq_min _ _ (by omega)
  have hdW : (computeFit baseW baseH cols rows).dstW ≤ cols := by
    rw [computeFit_dstW]
    exact clampInt_le_self _ _ hc
  have houtH := computeFit_outH_le baseW baseH cols rows
  have houtW := computeFit_outW_le baseW baseH cols rows
  have hpadY := computeFit_padY_eq baseW baseH cols rows
  have hpadX := computeFit_padX_eq baseW baseH cols rows
  refine ⟨by omega, by omega, ?_, ?_⟩
  · rw [countNL_renderAscii, hdH]
  · rw [countNL_renderTruecolor, hdH]

/-- C6 (witness): the amended statement applied at base 240×135 and an
80×24 destination. -/
theorem c6_witness :
    (computeFit 240 135 80 24).outH + 2 * (computeFit 240 135 80 24).padY ≤ 24 - 1
    ∧ (computeFit 240 135 80 24).outW + 2 * (computeFit 240 135 80 24).padX ≤ 80
    ∧ countNL (renderAscii 240 135 [] 80 24) = min (24 - 1) 10000
    ∧ countNL (renderTruecolor 240 135 [] 80 24) = min (24 - 1) 10000 :=
  c6_theorem 240 135 80 24 [] [] (by decide) (by decide)

/-- C7: a NAWS sub-negotiation advertising width or height zero leaves the
session geometry unchanged, one whose trailing bytes are `255,241` instead
of `IAC SE` leaves it unchanged, and on any input whatsoever the scanner
is total and either keeps the previous geometry or stores a positive
width and height — malformed negotiation never faults it. -/
theorem c7_theorem :
    (∀ cols rows w h : Nat, w = 0 ∨ h = 0 →
      parseNAWS cols rows [IAC, SB, NAWS, w / 256, w % 256, h / 256, h % 256, IAC, SE]
        = (cols, rows))
    ∧ (∀ cols rows : Nat,
      parseNAWS cols rows [255, 250, 31, 0, 80, 0, 24, 255, 241] = (cols, rows))
    ∧ (∀ (cols rows : Nat) (data : List Nat),
      parseNAWS cols rows data = (cols, rows)
      ∨ (0 < (parseNAWS cols rows data).1 ∧ 0 < (parseNAWS cols rows data).2)) := by
  refine ⟨?_, ?_, parseNAWS_state⟩
  · intro cols rows w h hwh
    rw [parseNAWS_nine, nawsMatchAt_nine_zero w h hwh]
  · intro cols rows
    rw [parseNAWS_nine,
      show nawsMatchAt [255, 250, 31, 0, 80, 0, 24, 255, 241] 0 = none from by decide]

/-- C7 (witness): zero width with height 24 leaves geometry `(5, 6)`
unchanged. -/
theorem c7_witness :
    parseNAWS 5 6 [255, 250, 31, 0, 0, 0, 24, 255, 240] = (5, 6) ∧ ((0 : Nat) = 0 ∨ (24 : Nat) = 0) :=
  ⟨c7_theorem.1 5 6 0 24 (Or.inl rfl), Or.inl rfl⟩

/-- C8: with a playlist of 3 items, startup plays item 0 and three
consecutive decoder close events without shutdown play items 1, 2 and 0
again (the cursor advances modulo the playlist length), and the demuxer
carry-over buffer — whatever bytes the stream handler left in it — is
reset to empty by every close event. -/
theorem c8_theorem (l1 l2 l3 : List Nat) :
    (onDecoderClose 3 { (onDecoderClose 3 { (onDecoderClose 3
        { startup 3 with leftover := l1 }) with leftover := l2 }) with leftover := l3 }).played
      = [0, 1, 2, 0]
    ∧ (onDecoderClose 3 { startup 3 with leftover := l1 }).leftover = []
    ∧ (onDecoderClose 3 { (onDecoderClose 3
        { startup 3 with leftover := l1 }) with leftover := l2 }).leftover = []
    ∧ (onDecoderClose 3 { (onDecoderClose 3 { (onDecoderClose 3
        { startup 3 with leftover := l1 }) with leftover := l2 }) with leftover := l3 }).leftover
      = [] := by
  refine ⟨?_, ?_, ?_, ?_⟩ <;> simp [onDecoderClose, playNext, startup, initialState]

/-- C9: the grayscale ramp lookup index `⌊v*(N-1)/255⌋` is monotone in the
luma value over `0..255`, so the selected ramp character never moves
toward dark as luma increases. -/
theorem c9_theorem (u v : Nat) (hu : u ≤ v) (hv : v ≤ 255) : lutIndex u ≤ lutIndex v := by
  unfold lutIndex
  exact Nat.div_le_div_right (Nat.mul_le_mul_right _ hu)

/-- C9 (witness): monotonicity applied at luma 3 and 200. -/
theorem c9_witness : 3 ≤ 200 ∧ 200 ≤ 255 ∧ lutIndex 3 ≤ lutIndex 200 :=
  ⟨by decide, by decide, c9_theorem 3 200 (by decide) (by decide)⟩

/-- C10: one input chunk flips the render mode at most once — the new mode
is either the old one or its single toggle — and a chunk containing `"mm"`
toggles exactly once (the result is the toggled mode, not the original
restored by a double flip). -/
theorem c10_theorem (s : Session) (data : List Nat) :
    ((onData s data).1.mode = s.mode ∨ (onData s data).1.mode = toggleMode s.mode)
    ∧ (onData s [109, 109]).1.mode = toggleMode s.mode
    ∧ (onData s [109, 109]).1.mode ≠ s.mode := by
  refine ⟨?_, rfl, toggleMode_ne s.mode⟩
  show (if (textFromTelnet data).contains 109 || (textFromTelnet data).contains 77
        then toggleMode s.mode else s.mode) = s.mode
    ∨ (if (textFromTelnet data).contains 109 || (textFromTelnet data).contains 77
        then toggleMode s.mode else s.mode) = toggleMode s.mode
  split
  · exact Or.inr rfl
  · exact Or.inl rfl

end TelnetVideo
